import Mathlib

/-!
# A verification development for the genji query layer

This file gives a shallow embedding, in Lean, of the query-execution code of
the genji embedded database (package `query`: the `SELECT`/`INSERT`/`UPDATE`
statement runners and the `whereClause` filter; package `genji`: the
recursive-descent parser for `INSERT` and `CREATE INDEX`; package `scanner`:
the token type and its binary-operator precedence function), together with
theorems about the embedded definitions.

Conventions of the embedding:
* Go machine integers (`int64`) become `Int`; byte slices become `List Nat`.
* Fallible Go functions (returning `error`) become `Except`/`Option` values.
* Go panics (out-of-range slice indexing) are made explicit as a distinguished
  outcome, separate from returned errors.
* Components of the wider project whose source is not part of this repository
  (the `field`, `record` and `table` packages, and the parser base) are
  modelled from the specification; each such definition says so in its doc
  comment.
-/

namespace Genji

/-- Modelled from the spec: the value/`field.Type` enumeration (§3).  Only the
distinctions the query layer observes are kept: null, bool, integer, float,
text and blob/bytes. -/
inductive FType where
  | fnull
  | fbool
  | fint
  | ffloat
  | ftext
  | fblob
deriving DecidableEq, Repr

/-- A `field.Field`: a name together with a typed, encoded value. -/
structure Field where
  name : String
  type : FType
  data : List Nat
deriving DecidableEq, Repr

/-- The result of evaluating an expression: a typed, encoded value
(the `Name` of the Go `field.Field` returned by `Eval` is never read). -/
structure Val where
  type : FType
  data : List Nat
deriving DecidableEq, Repr

/-- A record / field buffer: an ordered sequence of fields (§3, §4.C). -/
abbrev Record := List Field

/-- A table schema: the declared field names with their types, in order. -/
abbrev Schema := List (String × FType)

/-- An expression, seen through the only capability the query runner uses:
evaluation under a context holding an optional current record
(`EvalContext.Record`; `nil` for context-free evaluation). -/
def Expr := Option Record → Except String Val

/-- Modelled from the spec: truthiness of a value (§4.F: `WHERE` treats
`Null`/`false` as filter-out, everything else passes). Booleans are encoded
as a single byte, zero meaning `false`. -/
def Val.truthy (v : Val) : Bool :=
  match v.type with
  | FType.fnull => false
  | FType.fbool => v.data ≠ [0]
  | _ => true

/-- Embeds `record.FieldBuffer.Field` (modelled from the spec §4.C, `get`):
the first field carrying the given name, if any. -/
def Record.fieldByName (r : Record) (n : String) : Option Field :=
  r.find? (fun f => f.name = n)

/-- Embeds `record.FieldBuffer.Replace` (modelled from the spec §4.C): replace the
field carrying the given name, keeping its position; `none` when absent. -/
def Record.replaceField : Record → String → Field → Option Record
  | [], _, _ => none
  | g :: gs, n, f =>
    if g.name = n then some (f :: gs)
    else (Record.replaceField gs n f).map (fun gs' => g :: gs')

/-- The outcome of one pass of an operator chain: either the sentinel
`errStop` raised when `LIMIT` is reached, or a genuine error message. -/
inductive FErr where
  | stop
  | genuine (msg : String)
deriving DecidableEq, Repr

/-- The filtering loop of `whereClause` (`query.go`): the closure passed to
`table.Browser.Filter`, with its captured `skipped` and `count` state made
explicit.  Per record: evaluate the where expression (errors abort), drop
non-truthy records, skip while `skipped < offset`, raise the `errStop`
sentinel once `limit >= 0 && count >= limit`, otherwise keep the record. -/
def wcRun (e : Expr) (limit offset : Int) :
    List Record → Int → Int → (List Record × Option FErr)
  | [], _, _ => ([], none)
  | r :: rest, skipped, count =>
    match e (some r) with
    | .error m => ([], some (.genuine m))
    | .ok v =>
      if v.truthy = false then wcRun e limit offset rest skipped count
      else if skipped < offset then wcRun e limit offset rest (skipped + 1) count
      else if 0 ≤ limit ∧ limit ≤ count then ([], some .stop)
      else
        let res := wcRun e limit offset rest skipped (count + 1)
        (r :: res.1, res.2)

/-- The error handling at the end of `whereClause` (`query.go`): surface the
iteration error unless it is `nil` or the `errStop` sentinel, in which case
the filtered reader is returned with a nil error. -/
def wcFinish (res : List Record × Option FErr) : Except String (List Record) :=
  match res.2 with
  | some (.genuine m) => .error m
  | _ => .ok res.1

/-- Embeds `whereClause` (`query.go`): run the filter from zeroed state and apply
its error handling. -/
def whereClause (e : Expr) (limit offset : Int) (rs : List Record) :
    Except String (List Record) :=
  wcFinish (wcRun e limit offset rs 0 0)

/-- The tail of `recordStream.iterate` (`query.go`, driver): the error with
which `res.Iterate` ended is delivered on the stream's channel only when it
is neither `nil` nor the `errStop` sentinel.  The channel mechanics are
elided; this is the decision of which error, if any, reaches `Next`. -/
def recordStreamDeliveredError (iterationOutcome : Option FErr) : Option String :=
  match iterationOutcome with
  | none => none
  | some FErr.stop => none
  | some (FErr.genuine m) => some m

/-- The where-expression accepts the record: evaluation succeeds and the
resulting value is truthy. -/
def accepts (e : Expr) (r : Record) : Prop :=
  ∃ v, e (some r) = .ok v ∧ v.truthy = true

section WhereClauseLemmas

variable {e : Expr}

/-- With a negative (unset) limit the filter never stops: it yields every
accepted record after the offset. -/
theorem wcRun_no_limit {limit offset : Int} (hlim : limit < 0)
    (rs : List Record) (hall : ∀ r ∈ rs, accepts e r) :
    ∀ skipped count : Int, 0 ≤ skipped →
      wcRun e limit offset rs skipped count
        = (rs.drop (offset - skipped).toNat, none) := by
  induction rs with
  | nil => intro skipped count _; simp [wcRun]
  | cons r rest ih =>
    intro skipped count hsk
    obtain ⟨v, hv, htr⟩ := hall r (by simp)
    have hrest : ∀ x ∈ rest, accepts e x := fun x hx => hall x (by simp [hx])
    rw [wcRun, hv]
    simp only [htr]
    by_cases hskip : skipped < offset
    · rw [if_neg (by simp), if_pos hskip, ih hrest (skipped + 1) count (by omega)]
      have h1 : (offset - skipped).toNat = (offset - (skipped + 1)).toNat + 1 := by omega
      rw [h1, List.drop_succ_cons]
    · rw [if_neg (by simp), if_neg hskip, if_neg (by omega)]
      rw [ih hrest skipped (count + 1) hsk]
      have h0 : (offset - skipped).toNat = 0 := by omega
      simp [h0]

/-- With a non-negative limit the filter yields, after the offset, exactly
the records still allowed by the remaining limit budget. -/
theorem wcRun_with_limit {limit offset : Int} (hlim : 0 ≤ limit)
    (rs : List Record) (hall : ∀ r ∈ rs, accepts e r) :
    ∀ skipped count : Int, 0 ≤ skipped → 0 ≤ count → count ≤ limit →
      (wcRun e limit offset rs skipped count).1
        = (rs.drop (offset - skipped).toNat).take (limit - count).toNat := by
  induction rs with
  | nil => intro skipped count _ _ _; simp [wcRun]
  | cons r rest ih =>
    intro skipped count hsk hc hcl
    obtain ⟨v, hv, htr⟩ := hall r (by simp)
    have hrest : ∀ x ∈ rest, accepts e x := fun x hx => hall x (by simp [hx])
    rw [wcRun, hv]
    simp only [htr]
    by_cases hskip : skipped < offset
    · rw [if_neg (by simp), if_pos hskip]
      rw [ih hrest (skipped + 1) count (by omega) hc hcl]
      have h1 : (offset - skipped).toNat = (offset - (skipped + 1)).toNat + 1 := by omega
      rw [h1, List.drop_succ_cons]
    · rw [if_neg (by simp), if_neg hskip]
      by_cases hstop : limit ≤ count
      · rw [if_pos ⟨hlim, hstop⟩]
        have h0 : (limit - count).toNat = 0 := by omega
        simp [h0]
      · rw [if_neg (by simp [hstop])]
        simp only
        rw [ih hrest skipped (count + 1) hsk (by omega) (by omega)]
        have h0 : (offset - skipped).toNat = 0 := by omega
        have h1 : (limit - count).toNat = (limit - (count + 1)).toNat + 1 := by omega
        rw [h0, h1]
        simp [List.take_succ_cons]

/-- With a non-negative limit the filter never hits a genuine error on
accepted records (only possibly the stop sentinel). -/
theorem wcRun_err_not_genuine {limit offset : Int}
    (rs : List Record) (hall : ∀ r ∈ rs, accepts e r) :
    ∀ skipped count : Int, ∀ m,
      (wcRun e limit offset rs skipped count).2 ≠ some (.genuine m) := by
  induction rs with
  | nil => intro skipped count m; simp [wcRun]
  | cons r rest ih =>
    intro skipped count m
    obtain ⟨v, hv, htr⟩ := hall r (by simp)
    have hrest : ∀ x ∈ rest, accepts e x := fun x hx => hall x (by simp [hx])
    rw [wcRun, hv]
    simp only [htr]
    by_cases hskip : skipped < offset
    · rw [if_neg (by simp), if_pos hskip]; exact ih hrest _ _ m
    · rw [if_neg (by simp), if_neg hskip]
      by_cases hstop : 0 ≤ limit ∧ limit ≤ count
      · rw [if_pos hstop]; simp
      · rw [if_neg hstop]; simpa using ih hrest skipped (count + 1) m

end WhereClauseLemmas

/-- C2: for a table scan of `N` records that all satisfy the `WHERE`
predicate, with offset `k ≥ 0` and limit `m ≥ 0`, `whereClause` yields
exactly the records at scan positions `k` through `k + min(m, max(0, N-k)) - 1`
(that is, `(rs.drop k).take m`, of length `min m (N - k)` in truncating `Nat`
arithmetic); an offset or limit left unset (encoded as `-1`) skips no record
and returns all records, respectively. -/
theorem whereClause_limit_offset_semantics (e : Expr) (rs : List Record)
    (hall : ∀ r ∈ rs, accepts e r) (k m : Int) (_hk : 0 ≤ k) (hm : 0 ≤ m) :
    whereClause e m k rs = .ok ((rs.drop k.toNat).take m.toNat) ∧
    ((rs.drop k.toNat).take m.toNat).length = min m.toNat (rs.length - k.toNat) ∧
    whereClause e (-1) k rs = .ok (rs.drop k.toNat) ∧
    whereClause e m (-1) rs = .ok (rs.take m.toNat) ∧
    whereClause e (-1) (-1) rs = .ok rs := by
  have hok : ∀ (limit offset : Int),
      whereClause e limit offset rs = .ok (wcRun e limit offset rs 0 0).1 := by
    intro limit offset
    rcases hres : wcRun e limit offset rs 0 0 with ⟨l, e?⟩
    have h2 : (wcRun e limit offset rs 0 0).2 = e? := by rw [hres]
    unfold whereClause
    rw [hres]
    rcases e? with _ | fe
    · rfl
    · cases fe with
      | stop => rfl
      | genuine m => exact absurd h2 (wcRun_err_not_genuine rs hall 0 0 m)
  have hwl : ∀ (offset : Int), (wcRun e m offset rs 0 0).1
      = (rs.drop (offset - 0).toNat).take (m - 0).toNat :=
    fun offset => wcRun_with_limit hm rs hall 0 0 le_rfl le_rfl hm
  have hnl : ∀ (offset : Int), wcRun e (-1) offset rs 0 0
      = (rs.drop (offset - 0).toNat, none) :=
    fun offset => wcRun_no_limit (by omega) rs hall 0 0 le_rfl
  refine ⟨?_, ?_, ?_, ?_, ?_⟩
  · rw [hok m k, hwl k]; norm_num
  · rw [List.length_take, List.length_drop]
  · rw [hok (-1) k, hnl k]; norm_num
  · rw [hok m (-1), hwl (-1)]
    simp [show ((-1 : Int) - 0).toNat = 0 from rfl]
  · rw [hok (-1) (-1), hnl (-1)]
    simp [show ((-1 : Int) - 0).toNat = 0 from rfl]

/-- Witness for C2: a four-record scan with offset 1 and limit 2 returns the
records at positions 1 and 2. -/
theorem whereClause_limit_offset_semantics_witness :
    (∀ r ∈ ([[⟨"a", .fint, [0]⟩], [⟨"a", .fint, [1]⟩],
             [⟨"a", .fint, [2]⟩], [⟨"a", .fint, [3]⟩]] : List Record),
       accepts (fun _ => .ok ⟨FType.fbool, [1]⟩) r) ∧
    whereClause (fun _ => .ok ⟨FType.fbool, [1]⟩) 2 1
        [[⟨"a", .fint, [0]⟩], [⟨"a", .fint, [1]⟩],
         [⟨"a", .fint, [2]⟩], [⟨"a", .fint, [3]⟩]]
      = .ok [[⟨"a", .fint, [1]⟩], [⟨"a", .fint, [2]⟩]] := by
  have hall : ∀ r ∈ ([[⟨"a", .fint, [0]⟩], [⟨"a", .fint, [1]⟩],
             [⟨"a", .fint, [2]⟩], [⟨"a", .fint, [3]⟩]] : List Record),
      accepts (fun _ => .ok ⟨FType.fbool, [1]⟩) r :=
    fun r _ => ⟨⟨FType.fbool, [1]⟩, rfl, by decide⟩
  refine ⟨hall, ?_⟩
  have h := (whereClause_limit_offset_semantics (fun _ => .ok ⟨FType.fbool, [1]⟩)
    _ hall 1 2 (by decide) (by decide)).1
  exact h.trans (congrArg Except.ok (by decide))

/-- C9: the `errStop` sentinel raised when `LIMIT` is reached never escapes:
when the filter inside `whereClause` stops with the sentinel, `whereClause`
still returns a nil error together with the filtered records; any error
`whereClause` does surface is a genuine one; and the driver's record stream
delivers no error to `Next` when result iteration ended with `errStop`
(or with no error), while genuine errors are delivered. -/
theorem errStop_never_escapes :
    (∀ (e : Expr) (limit offset : Int) (rs : List Record),
      (wcRun e limit offset rs 0 0).2 = some FErr.stop →
        whereClause e limit offset rs = .ok (wcRun e limit offset rs 0 0).1) ∧
    (∀ (e : Expr) (limit offset : Int) (rs : List Record) (msg : String),
      whereClause e limit offset rs = .error msg →
        (wcRun e limit offset rs 0 0).2 = some (.genuine msg)) ∧
    recordStreamDeliveredError (some FErr.stop) = none ∧
    recordStreamDeliveredError none = none ∧
    (∀ m, recordStreamDeliveredError (some (.genuine m)) = some m) := by
  refine ⟨?_, ?_, rfl, rfl, fun _ => rfl⟩
  · intro e limit offset rs h
    rcases hres : wcRun e limit offset rs 0 0 with ⟨l, e?⟩
    rw [hres] at h
    simp only at h
    subst h
    unfold whereClause
    rw [hres]
    rfl
  · intro e limit offset rs msg h
    unfold whereClause at h
    rcases hres : wcRun e limit offset rs 0 0 with ⟨l, e?⟩
    rw [hres] at h
    rcases e? with _ | fe
    · exact absurd h (by simp [wcFinish])
    · cases fe with
      | stop => exact absurd h (by simp [wcFinish])
      | genuine m' =>
        have : m' = msg := by simpa [wcFinish] using h
        simp [this]

/-- Witness for C9: a two-record scan with limit 1 stops with the sentinel,
yet `whereClause` returns the one collected record and a nil error. -/
theorem errStop_never_escapes_witness :
    (wcRun (fun _ => .ok ⟨FType.fbool, [1]⟩) 1 0
        [[⟨"a", .fint, [0]⟩], [⟨"a", .fint, [1]⟩]] 0 0).2 = some FErr.stop ∧
    whereClause (fun _ => .ok ⟨FType.fbool, [1]⟩) 1 0
        [[⟨"a", .fint, [0]⟩], [⟨"a", .fint, [1]⟩]]
      = .ok [[⟨"a", .fint, [0]⟩]] := by
  have hstop : (wcRun (fun _ => .ok ⟨FType.fbool, [1]⟩) 1 0
      [[⟨"a", .fint, [0]⟩], [⟨"a", .fint, [1]⟩]] 0 0).2 = some FErr.stop := by decide
  refine ⟨hstop, ?_⟩
  have h := errStop_never_escapes.1 (fun _ => .ok ⟨FType.fbool, [1]⟩) 1 0
    [[⟨"a", .fint, [0]⟩], [⟨"a", .fint, [1]⟩]] hstop
  exact h.trans (congrArg Except.ok (by decide))

/-! ## The `UPDATE` statement (`UpdateStmt.Run`, `query.go`)

`UpdateStmt.pairs` is a Go `map[string]Expr`, filled by `Set` (which
overwrites an existing key).  `Run` iterates the map with `range`, whose
order Go leaves unspecified; the embedding therefore takes the `SET`
assignments as a list whose order stands for one possible iteration order
of the map, and two lists that are permutations of each other (with
distinct keys) denote the same map. -/

/-- Schema lookup (`record.Schema.Field`, modelled from the spec §3): the
declared type of the named field. -/
def schemaFieldType (sch : Schema) (n : String) : Option FType :=
  (sch.find? (fun p => p.1 = n)).map Prod.snd

/-- A constant expression: evaluation always returns the given value. -/
def exprConst (v : Val) : Expr := fun _ => .ok v

/-- The per-assignment schema validation of `UpdateStmt.Run`: on a schemaful
table, look the field up in the schema and reject when the type of the
field currently in the record buffer (`f.Type` in the source) differs from
the declared type.  (Note: the source compares the existing field's type,
not the newly evaluated value's type.) -/
def updSchemaCheck (sch : Option Schema) (n : String) (f : Field) :
    Except String Unit :=
  match sch with
  | none => .ok ()
  | some schema =>
    match schemaFieldType schema n with
    | none => .error ("field not found in schema: " ++ n)
    | some st =>
      if f.type ≠ st then .error "cannot assign value into field of different type"
      else .ok ()

/-- The end of one assignment: overwrite the found field's type and data with
the evaluated value and replace it in the buffer. -/
def updFinish (fb : Record) (n : String) (f : Field) (s : Val) :
    Except String Record :=
  match fb.replaceField n ⟨f.name, s.type, s.data⟩ with
  | none => .error ("field not found: " ++ n)
  | some fb' => .ok fb'

/-- One `SET` assignment applied to the field buffer `fb`, with the original
record `r` as evaluation context (the source evaluates `e` against the
record passed to the callback, not against the buffer being mutated):
look the field up in the buffer, evaluate the expression, run the schema
check, then replace the field. -/
def updPair (sch : Option Schema) (r fb : Record) (p : String × Expr) :
    Except String Record :=
  match fb.fieldByName p.1 with
  | none => .error ("field not found: " ++ p.1)
  | some f =>
    match p.2 (some r) with
    | .error m => .error m
    | .ok s =>
      match updSchemaCheck sch p.1 f with
      | .error m => .error m
      | .ok _ => updFinish fb p.1 f s

/-- The assignment loop of `UpdateStmt.Run` for one record, with the record
currently stored in the table made explicit: after every successful
assignment the buffer is written back (`t.Replace` inside the loop), and an
error aborts the loop leaving the last written buffer in the table. -/
def updLoop (sch : Option Schema) (r : Record) :
    List (String × Expr) → Record → Record → Record × Option String
  | [], _, stored => (stored, none)
  | p :: ps, fb, stored =>
    match updPair sch r fb p with
    | .error m => (stored, some m)
    | .ok fb' => updLoop sch r ps fb' fb'

/-- Processing of one matching record by `UpdateStmt.Run`: scan the record
into a fresh buffer, then run the assignment loop.  Returns the record left
in the table for this record id, and the error, if any, that aborted the
statement. -/
def updateRecordRun (sch : Option Schema) (pairs : List (String × Expr))
    (r : Record) : Record × Option String :=
  updLoop sch r pairs r r

/-- First-match lookup in an association list of `SET` assignments. -/
def lookupExpr : List (String × Expr) → String → Option Expr
  | [], _ => none
  | p :: ps, n => if p.1 = n then some p.2 else lookupExpr ps n

/-- The pointwise effect of a set of assignments on one field: if the field's
name is assigned and the expression evaluates, the field takes the
evaluated type and data; otherwise it is unchanged. -/
def assignField (r : Record) (pairs : List (String × Expr)) (f : Field) :
    Field :=
  match lookupExpr pairs f.name with
  | none => f
  | some e =>
    match e (some r) with
    | .ok s => ⟨f.name, s.type, s.data⟩
    | .error _ => f

/-- Pointwise application of the assignments to every field of `fb`,
evaluating against `r`. -/
def applyPairsOn (pairs : List (String × Expr)) (r fb : Record) : Record :=
  fb.map (assignField r pairs)

/-- Pointwise application of the assignments to the record itself. -/
def applyPairs (pairs : List (String × Expr)) (r : Record) : Record :=
  applyPairsOn pairs r r

/-- One assignment succeeds on record `r`: the field exists in the record,
the expression evaluates, and the schema validation (vacuous on schemaless
tables) passes for the field's current type. -/
def pairOKb (sch : Option Schema) (r : Record) (p : String × Expr) : Bool :=
  match r.fieldByName p.1 with
  | none => false
  | some f =>
    match p.2 (some r) with
    | .error _ => false
    | .ok _ =>
      match updSchemaCheck sch p.1 f with
      | .error _ => false
      | .ok _ => true

section UpdateLemmas

theorem fieldByName_nil (n : String) : Record.fieldByName [] n = none := rfl

theorem fieldByName_cons (x : Field) (xs : Record) (n : String) :
    Record.fieldByName (x :: xs) n
      = if x.name = n then some x else Record.fieldByName xs n := by
  unfold Record.fieldByName
  by_cases hx : x.name = n
  · rw [List.find?_cons_of_pos _ (by simpa using hx), if_pos hx]
  · rw [List.find?_cons_of_neg _ (by simpa using hx), if_neg hx]

theorem fieldByName_some_name {r : Record} {n : String} {f : Field}
    (h : r.fieldByName n = some f) : f.name = n := by
  have := List.find?_some h
  simpa using this

theorem assignField_name (r : Record) (pairs : List (String × Expr))
    (f : Field) : (assignField r pairs f).name = f.name := by
  rcases hl : lookupExpr pairs f.name with _ | e
  · simp [assignField, hl]
  · rcases he : e (some r) with m | s <;> simp [assignField, hl, he]

theorem applyPairsOn_names (pairs : List (String × Expr)) (r fb : Record) :
    (applyPairsOn pairs r fb).map Field.name = fb.map Field.name := by
  unfold applyPairsOn
  rw [List.map_map]
  exact List.map_congr_left (fun f _ => assignField_name r pairs f)

theorem lookupExpr_eq_none {l : List (String × Expr)} {n : String}
    (h : n ∉ l.map Prod.fst) : lookupExpr l n = none := by
  induction l with
  | nil => rfl
  | cons p ps ih =>
    rw [lookupExpr, if_neg, ih (fun hn => h (by simp [hn]))]
    intro hp
    exact h (by simp [hp])

theorem lookupExpr_mem {l : List (String × Expr)} {n : String} {e : Expr}
    (h : lookupExpr l n = some e) : (n, e) ∈ l := by
  induction l with
  | nil => exact absurd h (by simp [lookupExpr])
  | cons p ps ih =>
    rw [lookupExpr] at h
    by_cases hp : p.1 = n
    · rw [if_pos hp] at h
      have : p = (n, e) := by
        rcases p with ⟨p1, p2⟩
        simp at h hp
        simp [hp, h]
      simp [← this]
    · rw [if_neg hp] at h
      exact List.mem_cons_of_mem p (ih h)

theorem lookupExpr_of_mem {l : List (String × Expr)} {n : String} {e : Expr}
    (hnd : (l.map Prod.fst).Nodup) (h : (n, e) ∈ l) :
    lookupExpr l n = some e := by
  induction l with
  | nil => simp at h
  | cons p ps ih =>
    rw [List.map_cons, List.nodup_cons] at hnd
    rcases List.mem_cons.mp h with heq | hmem
    · rw [lookupExpr, if_pos (by rw [← heq])]
      rw [← heq]
    · have hp : p.1 ≠ n := by
        intro hp
        exact hnd.1 (hp ▸ (List.mem_map_of_mem Prod.fst hmem : (n, e).1 ∈ ps.map Prod.fst))
      rw [lookupExpr, if_neg hp]
      exact ih hnd.2 hmem

theorem lookupExpr_perm {l₁ l₂ : List (String × Expr)} (h : l₁.Perm l₂)
    (hnd : (l₁.map Prod.fst).Nodup) (n : String) :
    lookupExpr l₁ n = lookupExpr l₂ n := by
  have hnd₂ : (l₂.map Prod.fst).Nodup := ((h.map Prod.fst).nodup_iff).mp hnd
  rcases hl : lookupExpr l₁ n with _ | e
  · rcases hl₂ : lookupExpr l₂ n with _ | e₂
    · rfl
    · have := h.mem_iff.mpr (lookupExpr_mem hl₂)
      rw [lookupExpr_of_mem hnd this] at hl
      exact absurd hl (by simp)
  · exact (lookupExpr_of_mem hnd₂ (h.mem_iff.mp (lookupExpr_mem hl))).symm

theorem replaceField_eq_map {fb : Record} {n : String} {g : Field}
    (hnd : (fb.map Field.name).Nodup)
    (hfind : fb.fieldByName n = some g) (f : Field) :
    fb.replaceField n f
      = some (fb.map (fun h => if h.name = n then f else h)) := by
  induction fb with
  | nil => exact absurd hfind (by simp [fieldByName_nil])
  | cons x xs ih =>
    rw [List.map_cons, List.nodup_cons] at hnd
    rw [fieldByName_cons] at hfind
    by_cases hx : x.name = n
    · simp only [Record.replaceField, if_pos hx, List.map_cons]
      have hxs : xs.map (fun h => if h.name = n then f else h) = xs := by
        have : ∀ y ∈ xs, (if y.name = n then f else y) = y := by
          intro y hy
          rw [if_neg]
          intro hyn
          exact hnd.1 (hx ▸ hyn ▸ List.mem_map_of_mem Field.name hy)
        rw [List.map_congr_left this]
        simp
      rw [hxs]
    · rw [if_neg hx] at hfind
      simp only [Record.replaceField, if_neg hx, List.map_cons]
      rw [ih hnd.2 hfind]
      rfl

theorem fieldByName_applyOne_other (r fb : Record) (p : String × Expr)
    {n' : String} (hne : n' ≠ p.1) :
    (applyPairsOn [p] r fb).fieldByName n' = fb.fieldByName n' := by
  induction fb with
  | nil => rfl
  | cons x xs ih =>
    unfold applyPairsOn at ih ⊢
    rw [List.map_cons, fieldByName_cons, fieldByName_cons, assignField_name]
    by_cases hx : x.name = n'
    · rw [if_pos hx, if_pos hx]
      have hl : lookupExpr [p] x.name = none := by
        rw [lookupExpr, if_neg (by rw [hx]; exact fun hh => hne hh.symm)]
        rfl
      simp [assignField, hl]
    · rw [if_neg hx, if_neg hx]
      exact ih

theorem map_replace_eq_applyOne (r fb : Record) (p : String × Expr) {s : Val}
    (hev : p.2 (some r) = .ok s) :
    fb.map (fun h => if h.name = p.1 then (⟨p.1, s.type, s.data⟩ : Field) else h)
      = applyPairsOn [p] r fb := by
  unfold applyPairsOn
  apply List.map_congr_left
  intro h _
  by_cases hh : h.name = p.1
  · have hl : lookupExpr [p] p.1 = some p.2 := by
      rw [lookupExpr, if_pos rfl]
    simp [assignField, hl, hev, hh]
  · have hl : lookupExpr [p] h.name = none := by
      rw [lookupExpr, if_neg (fun hp => hh hp.symm)]
      rfl
    simp [assignField, hl, hh]

theorem assignField_compose {p : String × Expr} {ps : List (String × Expr)}
    (hnp : p.1 ∉ ps.map Prod.fst) (r : Record) (f : Field) :
    assignField r ps (assignField r [p] f) = assignField r (p :: ps) f := by
  by_cases hf : p.1 = f.name
  · have hinner : lookupExpr [p] f.name = some p.2 := by
      rw [lookupExpr, if_pos hf]
    have houter : lookupExpr (p :: ps) f.name = some p.2 := by
      rw [lookupExpr, if_pos hf]
    have hnone : lookupExpr ps f.name = none :=
      lookupExpr_eq_none (hf ▸ hnp)
    rcases hev : p.2 (some r) with m | s
    · simp [assignField, hinner, houter, hev, hnone]
    · simp [assignField, hinner, houter, hev, hnone]
  · have hinner : lookupExpr [p] f.name = none := by
      rw [lookupExpr, if_neg hf]
      rfl
    have houter : lookupExpr (p :: ps) f.name = lookupExpr ps f.name := by
      rw [lookupExpr, if_neg hf]
    simp [assignField, hinner, houter]

theorem applyOne_then_rest {p : String × Expr} {ps : List (String × Expr)}
    (hnp : p.1 ∉ ps.map Prod.fst) (r fb : Record) :
    applyPairsOn ps r (applyPairsOn [p] r fb) = applyPairsOn (p :: ps) r fb := by
  unfold applyPairsOn
  rw [List.map_map]
  exact List.map_congr_left (fun f _ => assignField_compose hnp r f)

/-- When every assignment in `todo` (with pairwise distinct field names)
succeeds on record `r`, the assignment loop applied to a buffer `fb` that
agrees with `r` on names and on the assigned fields produces exactly the
pointwise application of the assignments, with no error. -/
theorem updLoop_all_ok (sch : Option Schema) (r : Record)
    (hrnd : (r.map Field.name).Nodup) :
    ∀ (todo : List (String × Expr)) (fb : Record),
      (todo.map Prod.fst).Nodup →
      fb.map Field.name = r.map Field.name →
      (∀ p ∈ todo, fb.fieldByName p.1 = r.fieldByName p.1) →
      (∀ p ∈ todo, pairOKb sch r p = true) →
      updLoop sch r todo fb fb = (applyPairsOn todo r fb, none) := by
  intro todo
  induction todo with
  | nil =>
    intro fb _ _ _ _
    simp only [updLoop, applyPairsOn]
    have h1 : List.map (assignField r []) fb = List.map id fb :=
      List.map_congr_left (fun f _ => by simp [assignField, lookupExpr, id])
    rw [h1, List.map_id]
  | cons p ps ih =>
    intro fb hnd hnames hfb hok
    have hokp := hok p (List.mem_cons_self p ps)
    unfold pairOKb at hokp
    split at hokp
    next hfind => exact absurd hokp (by simp)
    rename_i f₀ hfind
    split at hokp
    next m hev => exact absurd hokp (by simp)
    rename_i s hev
    split at hokp
    next m hbad => exact absurd hokp (by simp)
    rename_i u hcheck₀
    have hcheck : updSchemaCheck sch p.1 f₀ = .ok () := by
      cases u
      exact hcheck₀
    have hname : f₀.name = p.1 := fieldByName_some_name hfind
    have hfbfind : fb.fieldByName p.1 = some f₀ :=
      (hfb p (List.mem_cons_self p ps)).trans hfind
    have hfbnd : (fb.map Field.name).Nodup := hnames ▸ hrnd
    have hrep := replaceField_eq_map hfbnd hfbfind ⟨f₀.name, s.type, s.data⟩
    have hform : fb.map
        (fun h => if h.name = p.1 then (⟨f₀.name, s.type, s.data⟩ : Field) else h)
          = applyPairsOn [p] r fb := by
      rw [hname]
      exact map_replace_eq_applyOne r fb p hev
    have hpair : updPair sch r fb p = .ok (applyPairsOn [p] r fb) := by
      rw [← hform]
      simp [updPair, hfbfind, hev, hcheck, updFinish, hrep]
    rw [List.map_cons, List.nodup_cons] at hnd
    have hfb' : ∀ q ∈ ps, (applyPairsOn [p] r fb).fieldByName q.1
        = r.fieldByName q.1 := by
      intro q hq
      have hqne : q.1 ≠ p.1 := by
        intro hqp
        exact hnd.1 (hqp ▸ List.mem_map_of_mem Prod.fst hq)
      rw [fieldByName_applyOne_other r fb p hqne]
      exact hfb q (List.mem_cons_of_mem p hq)
    have hnames' : (applyPairsOn [p] r fb).map Field.name = r.map Field.name :=
      (applyPairsOn_names [p] r fb).trans hnames
    have hok' : ∀ q ∈ ps, pairOKb sch r q = true :=
      fun q hq => hok q (List.mem_cons_of_mem p hq)
    rw [updLoop, hpair]
    show updLoop sch r ps (applyPairsOn [p] r fb) (applyPairsOn [p] r fb)
        = (applyPairsOn (p :: ps) r fb, none)
    rw [ih (applyPairsOn [p] r fb) hnd.2 hnames' hfb' hok']
    rw [applyOne_then_rest hnd.1 r fb]

end UpdateLemmas

/-- C1 (amended): `UpdateStmt.pairs` is a map iterated in unspecified order,
so the assignments are not applied in declared order; but when every `SET`
assignment individually succeeds on the matching record (field present,
expression evaluates, schema check passes), the resulting record is the
pointwise application of the assignments — each `SET` expression is
evaluated against the original record and each assignment targets a
distinct field — so any two iteration orders of the same map (permutations
with distinct keys) leave the same record and no error: two successful runs
over the same data produce the same resulting record. -/
theorem update_set_order_independent (sch : Option Schema)
    (pairs₁ pairs₂ : List (String × Expr)) (r : Record)
    (hperm : pairs₁.Perm pairs₂)
    (hnd : (pairs₁.map Prod.fst).Nodup)
    (hr : (r.map Field.name).Nodup)
    (hok : ∀ p ∈ pairs₁, pairOKb sch r p = true) :
    updateRecordRun sch pairs₁ r = (applyPairs pairs₁ r, none) ∧
    updateRecordRun sch pairs₂ r = updateRecordRun sch pairs₁ r := by
  have h₁ : updateRecordRun sch pairs₁ r = (applyPairsOn pairs₁ r r, none) :=
    updLoop_all_ok sch r hr pairs₁ r hnd rfl (fun _ _ => rfl) hok
  have hnd₂ : (pairs₂.map Prod.fst).Nodup := ((hperm.map Prod.fst).nodup_iff).mp hnd
  have hok₂ : ∀ p ∈ pairs₂, pairOKb sch r p = true :=
    fun p hp => hok p (hperm.mem_iff.mpr hp)
  have h₂ : updateRecordRun sch pairs₂ r = (applyPairsOn pairs₂ r r, none) :=
    updLoop_all_ok sch r hr pairs₂ r hnd₂ rfl (fun _ _ => rfl) hok₂
  have happly : applyPairsOn pairs₂ r r = applyPairsOn pairs₁ r r := by
    unfold applyPairsOn
    apply List.map_congr_left
    intro f _
    unfold assignField
    rw [lookupExpr_perm hperm hnd f.name]
  exact ⟨h₁, by rw [h₂, h₁, happly]⟩

/-- Witness for C1: `SET a = 9, b = 8` on the record `{a: 1, b: 2}` gives the
same result under both iteration orders. -/
theorem update_set_order_independent_witness :
    (([("a", exprConst ⟨FType.fint, [9]⟩),
       ("b", exprConst ⟨FType.fint, [8]⟩)].map Prod.fst).Nodup) ∧
    updateRecordRun none
        [("b", exprConst ⟨FType.fint, [8]⟩), ("a", exprConst ⟨FType.fint, [9]⟩)]
        [⟨"a", FType.fint, [1]⟩, ⟨"b", FType.fint, [2]⟩]
      = updateRecordRun none
        [("a", exprConst ⟨FType.fint, [9]⟩), ("b", exprConst ⟨FType.fint, [8]⟩)]
        [⟨"a", FType.fint, [1]⟩, ⟨"b", FType.fint, [2]⟩] := by
  refine ⟨by decide, ?_⟩
  have h := update_set_order_independent none
    [("a", exprConst ⟨FType.fint, [9]⟩), ("b", exprConst ⟨FType.fint, [8]⟩)]
    [("b", exprConst ⟨FType.fint, [8]⟩), ("a", exprConst ⟨FType.fint, [9]⟩)]
    [⟨"a", FType.fint, [1]⟩, ⟨"b", FType.fint, [2]⟩]
    (List.Perm.swap _ _ _) (by decide) (by decide) (by decide)
  exact h.2

/-- Counterexample for C1: the two iteration orders of the same `SET` map
`{a ↦ 2, z ↦ 3}` (a permutation with distinct keys) leave different records
in the table when applied to `{a: 1}` — field `z` is absent, and whether the
write of `a` happened before the failure depends on the iteration order; so
the code does not behave as "assignments applied in declared order", and two
runs over the same data may produce different resulting records. -/
theorem update_declared_order_counterexample :
    ([("a", exprConst ⟨FType.fint, [2]⟩), ("z", exprConst ⟨FType.fint, [3]⟩)]).Perm
      [("z", exprConst ⟨FType.fint, [3]⟩), ("a", exprConst ⟨FType.fint, [2]⟩)] ∧
    (([("a", exprConst ⟨FType.fint, [2]⟩),
       ("z", exprConst ⟨FType.fint, [3]⟩)]).map Prod.fst).Nodup ∧
    updateRecordRun none
        [("a", exprConst ⟨FType.fint, [2]⟩), ("z", exprConst ⟨FType.fint, [3]⟩)]
        [⟨"a", FType.fint, [1]⟩]
      ≠ updateRecordRun none
        [("z", exprConst ⟨FType.fint, [3]⟩), ("a", exprConst ⟨FType.fint, [2]⟩)]
        [⟨"a", FType.fint, [1]⟩] := by
  refine ⟨List.Perm.swap _ _ _, by decide, by decide⟩

/-- C3 (code bug): on a schemaful table with `a` declared `INT`, the record
`{a: 5}` conforms to the schema, so the update-time check — which compares
the type of the field already in the record (`f.Type`) to the declared
type, rather than the type of the newly evaluated value — always passes,
and `SET a = <text value>` writes a text value into the integer field with
no error, instead of failing with a type error as specified. -/
theorem update_type_check_ignores_new_value :
    updateRecordRun (some [("a", FType.fint)])
        [("a", exprConst ⟨FType.ftext, [77]⟩)]
        [⟨"a", FType.fint, [5]⟩]
      = ([⟨"a", FType.ftext, [77]⟩], none) := by decide

/-! ## The `INSERT` statement (`InsertStmt.Run`, `query.go`) -/

/-- Modelled from the spec: the engine-assigned record identifier, a
monotonically increasing 64-bit integer encoded big-endian (§3). -/
def encodeBE8 (n : Nat) : List Nat :=
  [n / 2 ^ 56 % 256, n / 2 ^ 48 % 256, n / 2 ^ 40 % 256, n / 2 ^ 32 % 256,
   n / 2 ^ 24 % 256, n / 2 ^ 16 % 256, n / 2 ^ 8 % 256, n % 256]

/-- Modelled from the spec: a `genji.Table` as the query layer sees it — an
optional schema, the stored records keyed by record id, and the next
engine-assigned identifier. -/
structure Table where
  schema : Option Schema
  rows : List (List Nat × Record)
  nextID : Nat
deriving DecidableEq, Repr

/-- Modelled from the spec: `genji.Table.Insert` stores the record under a
fresh engine-assigned record id and returns that id (§3, §6.5). -/
def Table.insert (t : Table) (rec : Record) : List Nat × Table :=
  (encodeBE8 t.nextID,
   { t with rows := t.rows ++ [(encodeBE8 t.nextID, rec)],
            nextID := t.nextID + 1 })

/-- Modelled from the spec: `field.ZeroValue` — the zero value of the given
type.  Its encoding is an engine detail; the claims only inspect its type. -/
def zeroValue (ty : FType) : Val := ⟨ty, []⟩

/-- A failure of an insert path: a returned Go error, or a Go panic (the
out-of-range slice index reachable in `runSchemafulWithSelectedFields`). -/
inductive IErr where
  | err (msg : String)
  | panic
deriving DecidableEq, Repr

/-- The `Result` a statement run returns, as the caller observes it: the
records of the result table (`nil` on error, here the empty list) and the
error, if any. -/
structure QResult where
  tbl : List Record
  err : Option String
deriving DecidableEq, Repr

/-- The outcome of `InsertStmt.Run`: a `Result` together with the table
state after the statement, or a Go panic. -/
inductive RunOut where
  | res (q : QResult) (t : Table)
  | panicked
deriving DecidableEq, Repr

/-- Embeds `InsertStmt`: the field names passed to `Fields` and the value
expressions passed to `Values` (the table itself is passed to `run`). -/
structure InsertStmt where
  fieldNames : List String
  values : List Expr

/-- Embeds `recordIDToTable` (`query.go`): a one-record result table holding the
single field `recordID` with the inserted record's id (`field.NewBytes`
produces a `Bytes`-typed field). -/
def recordIDToTable (recordID : List Nat) : List Record :=
  [[⟨"recordID", FType.fblob, recordID⟩]]

/-- The loop of `runWithoutSelectedFields` (`query.go`): for each schema
field in order, evaluate the positionally corresponding value (the counts
were already checked equal, hence the zip) and reject when its type differs
from the declared type; fields are stored under the schema name and type. -/
def buildWithoutFields : List ((String × FType) × Expr) → Record →
    Except IErr Record
  | [], fb => .ok fb
  | (sf, e) :: rest, fb =>
    match e none with
    | .error m => .error (.err m)
    | .ok sc =>
      if sc.type ≠ sf.2 then
        .error (.err "cannot assign value into field of different type")
      else buildWithoutFields rest (fb ++ [⟨sf.1, sf.2, sc.data⟩])

/-- Embeds `runWithoutSelectedFields` (`query.go`), up to the `t.Insert` call:
schemaless tables reject the form without a field list; schemaful tables
require the value count to equal the schema field count, then build the
record in schema order. -/
def runWithoutSelectedFields (stmt : InsertStmt) (t : Table) :
    Except IErr Record :=
  match t.schema with
  | none => .error (.err "fields must be selected for schemaless tables")
  | some sch =>
    if sch.length ≠ stmt.values.length then
      .error (.err "field count mismatch")
    else buildWithoutFields (sch.zip stmt.values) []

/-- The loop of `runSchemalessWithSelectedFields` (`query.go`): each value is
paired positionally with the field name at the same position (the counts
were already checked equal, hence the zip). -/
def buildSchemalessFields : List (String × Expr) → Record → Except IErr Record
  | [], fb => .ok fb
  | (name, e) :: rest, fb =>
    match e none with
    | .error m => .error (.err m)
    | .ok sc => buildSchemalessFields rest (fb ++ [⟨name, sc.type, sc.data⟩])

/-- Embeds `runSchemalessWithSelectedFields` (`query.go`), up to the `t.Insert`
call: the value count must equal the field-name count. -/
def runSchemalessWithSelectedFields (stmt : InsertStmt) : Except IErr Record :=
  if stmt.fieldNames.length ≠ stmt.values.length then
    .error (.err "values and fields count mismatch")
  else buildSchemalessFields (stmt.fieldNames.zip stmt.values) []

/-- The inner loop of `runSchemafulWithSelectedFields` (`query.go`) for one
schema field `sf`: scan all positions of the statement's field-name list; at
every position whose name equals the schema field's name, index into the
values slice (a Go panic when the position has no value), evaluate, reject
on a type mismatch with the declared type, append the field, and mark the
schema field found.  There is no cardinality check. -/
def sfFieldLoop (vals : List Expr) (sf : String × FType) :
    List (Nat × String) → Record → Bool → Except IErr (Record × Bool)
  | [], fb, found => .ok (fb, found)
  | (idx, name) :: rest, fb, found =>
    if name ≠ sf.1 then sfFieldLoop vals sf rest fb found
    else
      match vals[idx]? with
      | none => .error .panic
      | some e =>
        match e none with
        | .error m => .error (.err m)
        | .ok sc =>
          if sc.type ≠ sf.2 then
            .error (.err "cannot assign value into field of different type")
          else sfFieldLoop vals sf rest (fb ++ [⟨name, sc.type, sc.data⟩]) true

/-- The outer loop of `runSchemafulWithSelectedFields` (`query.go`): for each
schema field in order run the matching loop; when no position matched,
append the zero value of the declared type under the schema field's name. -/
def sfSchemaLoop (stmt : InsertStmt) : List (String × FType) → Record →
    Except IErr Record
  | [], fb => .ok fb
  | sf :: rest, fb =>
    match sfFieldLoop stmt.values sf stmt.fieldNames.enum fb false with
    | .error e => .error e
    | .ok (fb', found) =>
      if found then sfSchemaLoop stmt rest fb'
      else sfSchemaLoop stmt rest
        (fb' ++ [⟨sf.1, (zeroValue sf.2).type, (zeroValue sf.2).data⟩])

/-- Embeds `runSchemafulWithSelectedFields` (`query.go`), up to the `t.Insert`
call. -/
def runSchemafulWithSelectedFields (stmt : InsertStmt) (sch : Schema) :
    Except IErr Record :=
  sfSchemaLoop stmt sch []

/-- The dispatch of `InsertStmt.Run` (`query.go`) to the three record
builders: no field names selects the schema-ordered form; otherwise the
table being schemaless or schemaful selects the positional or the
schema-driven form. -/
def insertBuild (stmt : InsertStmt) (t : Table) : Except IErr Record :=
  if stmt.fieldNames.isEmpty then runWithoutSelectedFields stmt t
  else
    match t.schema with
    | none => runSchemalessWithSelectedFields stmt
    | some sch => runSchemafulWithSelectedFields stmt sch

/-- The common tail of the insert paths: an error becomes a `Result` with a
nil table and non-nil error (the table untouched), a panic propagates, and
a built record is inserted, the `Result` holding only the one-record
`recordID` table. -/
def insertFinish (t : Table) (build : Except IErr Record) : RunOut :=
  match build with
  | .error (.err m) => .res ⟨[], some m⟩ t
  | .error .panic => .panicked
  | .ok fb => .res ⟨recordIDToTable (t.insert fb).1, none⟩ (t.insert fb).2

/-- Embeds `InsertStmt.Run` (`query.go`): reject an empty value list, then build
and insert. -/
def InsertStmt.run (stmt : InsertStmt) (t : Table) : RunOut :=
  if stmt.values.isEmpty then .res ⟨[], some "empty values"⟩ t
  else insertFinish t (insertBuild stmt t)

/-- The field stored by the positional pairing of the schemaless
selected-fields path: the name at a position together with the evaluated
value at the same position (the error branch is unreachable when the
expression evaluates). -/
def pairedField (p : String × Expr) : Field :=
  match p.2 none with
  | .ok sc => ⟨p.1, sc.type, sc.data⟩
  | .error _ => ⟨p.1, FType.fnull, []⟩

theorem buildSchemalessFields_ok (pairs : List (String × Expr)) :
    ∀ fb, (∀ p ∈ pairs, ∃ sc, (p.2 : Expr) none = Except.ok sc) →
      buildSchemalessFields pairs fb = .ok (fb ++ pairs.map pairedField) := by
  induction pairs with
  | nil => intro fb _; simp [buildSchemalessFields]
  | cons p ps ih =>
    intro fb hev
    obtain ⟨sc, hsc⟩ := hev p (List.mem_cons_self p ps)
    rcases p with ⟨name, e⟩
    simp only at hsc
    simp only [buildSchemalessFields, hsc]
    rw [ih (fb ++ [(⟨name, sc.type, sc.data⟩ : Field)])
      (fun q hq => hev q (List.mem_cons_of_mem (name, e) hq))]
    simp [pairedField, hsc]

/-- C10: every `Result` returned by `InsertStmt.Run` either has a nil error
and a table holding exactly one record with the single field `recordID`
whose value is the record id assigned by the table insert, or a non-nil
error and an empty (nil) table. -/
theorem insert_result_shape (stmt : InsertStmt) (t : Table) :
    ∀ q t', stmt.run t = .res q t' →
      (q.err = none → q.tbl = recordIDToTable (encodeBE8 t.nextID)) ∧
      (q.err ≠ none → q.tbl = []) := by
  intro q t' h
  unfold InsertStmt.run at h
  by_cases hempty : stmt.values.isEmpty
  · rw [if_pos hempty] at h
    simp only [RunOut.res.injEq] at h
    obtain ⟨hq, _⟩ := h
    rw [← hq]
    exact ⟨fun hc => absurd hc (by simp), fun _ => rfl⟩
  · rw [if_neg hempty] at h
    rcases hb : insertBuild stmt t with e | fb
    · rcases e with m | _
      · rw [hb] at h
        simp only [insertFinish, RunOut.res.injEq] at h
        obtain ⟨hq, _⟩ := h
        rw [← hq]
        exact ⟨fun hc => absurd hc (by simp), fun _ => rfl⟩
      · rw [hb] at h
        exact absurd h (by simp [insertFinish])
    · rw [hb] at h
      simp only [insertFinish, RunOut.res.injEq] at h
      obtain ⟨hq, _⟩ := h
      rw [← hq]
      exact ⟨fun _ => rfl, fun hc => absurd rfl hc⟩

/-- Witness for C10: a successful insert into an empty schemaless table
returns a nil error and the one-record `recordID` result table. -/
theorem insert_result_shape_witness :
    (⟨["a"], [exprConst ⟨FType.fint, [1]⟩]⟩ : InsertStmt).run ⟨none, [], 0⟩
        = .res ⟨recordIDToTable (encodeBE8 0), none⟩
            ⟨none, [(encodeBE8 0, [⟨"a", FType.fint, [1]⟩])], 1⟩ ∧
    (⟨recordIDToTable (encodeBE8 0), none⟩ : QResult).tbl
        = recordIDToTable (encodeBE8 0) := by
  have hrun : (⟨["a"], [exprConst ⟨FType.fint, [1]⟩]⟩ : InsertStmt).run
      ⟨none, [], 0⟩
        = .res ⟨recordIDToTable (encodeBE8 0), none⟩
            ⟨none, [(encodeBE8 0, [⟨"a", FType.fint, [1]⟩])], 1⟩ := by decide
  exact ⟨hrun, (insert_result_shape _ _ _ _ hrun).1 rfl⟩

/-- Counterexample for C4: an `INSERT` with two field names but one value
into a schemaful table whose schema holds only `a` succeeds and inserts a
record — the schemaful selected-fields path has no cardinality check, so a
count mismatch does not fail. -/
theorem insert_fieldcount_not_checked_schemaful :
    ((⟨["a", "zzz"], [exprConst ⟨FType.fint, [1]⟩]⟩ : InsertStmt).fieldNames.length
        ≠ (⟨["a", "zzz"], [exprConst ⟨FType.fint, [1]⟩]⟩ : InsertStmt).values.length) ∧
    (⟨["a", "zzz"], [exprConst ⟨FType.fint, [1]⟩]⟩ : InsertStmt).run
        ⟨some [("a", FType.fint)], [], 0⟩
      = .res ⟨recordIDToTable (encodeBE8 0), none⟩
          ⟨some [("a", FType.fint)], [(encodeBE8 0, [⟨"a", FType.fint, [1]⟩])], 1⟩ := by
  exact ⟨by decide, by decide⟩

/-- C4 (amended): with an explicit field list on a schemaless table, each
value is paired positionally with the field name at the same position, and
a count mismatch fails with an error leaving the table unchanged.  The
schemaful selected-fields path performs no cardinality check: a field name
matching no schema field is ignored even when the counts differ (and a
matched name whose position exceeds the value count panics). -/
theorem insert_selected_fields_schemaless (stmt : InsertStmt) (t : Table)
    (hsch : t.schema = none) (hf : stmt.fieldNames ≠ []) (hv : stmt.values ≠ []) :
    (stmt.fieldNames.length ≠ stmt.values.length →
      stmt.run t = .res ⟨[], some "values and fields count mismatch"⟩ t) ∧
    (stmt.fieldNames.length = stmt.values.length →
      (∀ e ∈ stmt.values, ∃ sc, e none = Except.ok sc) →
      stmt.run t = .res ⟨recordIDToTable (encodeBE8 t.nextID), none⟩
        { schema := t.schema,
          rows := t.rows ++ [(encodeBE8 t.nextID,
            (stmt.fieldNames.zip stmt.values).map pairedField)],
          nextID := t.nextID + 1 }) := by
  have hvempty : ¬ (stmt.values.isEmpty = true) :=
    fun hh => hv (List.isEmpty_iff.mp hh)
  have hfempty : ¬ (stmt.fieldNames.isEmpty = true) :=
    fun hh => hf (List.isEmpty_iff.mp hh)
  obtain ⟨tsch, trows, tnext⟩ := t
  replace hsch : tsch = none := hsch
  subst hsch
  constructor
  · intro hne
    unfold InsertStmt.run
    rw [if_neg hvempty]
    unfold insertBuild
    rw [if_neg hfempty]
    show insertFinish _ (runSchemalessWithSelectedFields stmt) = _
    unfold runSchemalessWithSelectedFields
    rw [if_pos hne]
    rfl
  · intro heq hev
    unfold InsertStmt.run
    rw [if_neg hvempty]
    unfold insertBuild
    rw [if_neg hfempty]
    show insertFinish _ (runSchemalessWithSelectedFields stmt) = _
    unfold runSchemalessWithSelectedFields
    rw [if_neg (by simp [heq])]
    rw [buildSchemalessFields_ok (stmt.fieldNames.zip stmt.values) []
      (fun p hp => hev p.2 (List.of_mem_zip hp).2)]
    rfl

/-- Witness for C4: on a schemaless table, `INSERT (a, b) VALUES (1)` (a
count mismatch) errors leaving the table unchanged, and
`INSERT (a, b) VALUES (1, 2)` inserts `{a: 1, b: 2}`. -/
theorem insert_selected_fields_schemaless_witness :
    (⟨["a", "b"], [exprConst ⟨FType.fint, [1]⟩]⟩ : InsertStmt).run ⟨none, [], 0⟩
        = .res ⟨[], some "values and fields count mismatch"⟩ ⟨none, [], 0⟩ ∧
    (⟨["a", "b"], [exprConst ⟨FType.fint, [1]⟩, exprConst ⟨FType.fint, [2]⟩]⟩
        : InsertStmt).run ⟨none, [], 0⟩
      = .res ⟨recordIDToTable (encodeBE8 0), none⟩
          ⟨none, [(encodeBE8 0, [⟨"a", FType.fint, [1]⟩, ⟨"b", FType.fint, [2]⟩])], 1⟩ := by
  constructor
  · exact (insert_selected_fields_schemaless
      ⟨["a", "b"], [exprConst ⟨FType.fint, [1]⟩]⟩ ⟨none, [], 0⟩
      rfl (by decide) (by simp)).1 (by decide)
  · have h := (insert_selected_fields_schemaless
      ⟨["a", "b"], [exprConst ⟨FType.fint, [1]⟩, exprConst ⟨FType.fint, [2]⟩]⟩
      ⟨none, [], 0⟩ rfl (by decide) (by simp)).2 (by decide)
      (by
        intro e he
        cases he with
        | head => exact ⟨_, rfl⟩
        | tail _ he₂ =>
          cases he₂ with
          | head => exact ⟨_, rfl⟩
          | tail _ he₃ => cases he₃)
    exact h.trans (by decide)

/-- The field stored for a schema field `sf` when a position `pr` of the
field-name list matched it: the value at that position, evaluated (the
fallback branches are unreachable when the position has a value that
evaluates). -/
def suppliedField (vals : List Expr) (sf : String × FType) (pr : Nat × String) :
    Field :=
  match vals[pr.1]? with
  | some e =>
    match e none with
    | .ok sc => ⟨sf.1, sc.type, sc.data⟩
    | .error _ => ⟨sf.1, sf.2, []⟩
  | none => ⟨sf.1, sf.2, []⟩

/-- The record built by the schemaful selected-fields path: one field per
schema field in schema order — the supplied value at the first matching
position of the field-name list, or the zero value of the declared type
when no position matches. -/
def schemafulRecord (stmt : InsertStmt) (schList : List (String × FType)) :
    Record :=
  schList.map (fun sf =>
    match stmt.fieldNames.enum.find? (fun pr => pr.2 = sf.1) with
    | some pr => suppliedField stmt.values sf pr
    | none => ⟨sf.1, (zeroValue sf.2).type, (zeroValue sf.2).data⟩)

theorem sfFieldLoop_nomatch (vals : List Expr) (sf : String × FType) :
    ∀ (el : List (Nat × String)) (fb : Record) (found : Bool),
      (∀ pr ∈ el, pr.2 ≠ sf.1) →
      sfFieldLoop vals sf el fb found = .ok (fb, found) := by
  intro el
  induction el with
  | nil => intro fb found _; rfl
  | cons pr rest ih =>
    intro fb found hno
    rcases pr with ⟨idx, name⟩
    have hname : name ≠ sf.1 := hno (idx, name) (List.mem_cons_self _ _)
    simp only [sfFieldLoop, if_pos hname]
    exact ih fb found (fun q hq => hno q (List.mem_cons_of_mem _ hq))

theorem sfFieldLoop_char (vals : List Expr) (sf : String × FType) :
    ∀ (el : List (Nat × String)) (fb : Record) (found : Bool),
      (el.map Prod.snd).Nodup →
      (∀ pr ∈ el, pr.2 = sf.1 →
        ∃ e sc, vals[pr.1]? = some e ∧ e none = Except.ok sc ∧
          sc.type = sf.2) →
      sfFieldLoop vals sf el fb found
        = .ok (match el.find? (fun pr => pr.2 = sf.1) with
               | none => (fb, found)
               | some pr => (fb ++ [suppliedField vals sf pr], true)) := by
  intro el
  induction el with
  | nil => intro fb found _ _; rfl
  | cons pr rest ih =>
    intro fb found hnd hsup
    rcases pr with ⟨idx, name⟩
    rw [List.map_cons, List.nodup_cons] at hnd
    by_cases hname : name = sf.1
    · obtain ⟨e, sc, hget, hev, hty⟩ :=
        hsup (idx, name) (List.mem_cons_self _ _) hname
      simp only at hget
      have hrest : ∀ q ∈ rest, q.2 ≠ sf.1 := by
        intro q hq hq1
        have h2 : q.2 ∈ List.map Prod.snd rest := List.mem_map.mpr ⟨q, hq, rfl⟩
        rw [hq1, ← hname] at h2
        exact hnd.1 h2
      rw [List.find?_cons_of_pos _ (by simpa using hname)]
      simp only [sfFieldLoop, if_neg (show ¬ name ≠ sf.1 by simp [hname]),
        hget, hev, if_neg (show ¬ sc.type ≠ sf.2 by simp [hty])]
      rw [sfFieldLoop_nomatch vals sf rest _ true hrest]
      simp [suppliedField, hget, hev, hname]
    · rw [List.find?_cons_of_neg _ (by simpa using hname)]
      simp only [sfFieldLoop, if_pos hname]
      exact ih fb found hnd.2
        (fun q hq => hsup q (List.mem_cons_of_mem _ hq))

theorem sfSchemaLoop_char (stmt : InsertStmt) (hnd : stmt.fieldNames.Nodup) :
    ∀ (schList : List (String × FType)) (fb : Record),
      (∀ sf ∈ schList, ∀ pr ∈ stmt.fieldNames.enum, pr.2 = sf.1 →
        ∃ e sc, stmt.values[pr.1]? = some e ∧ e none = Except.ok sc ∧
          sc.type = sf.2) →
      sfSchemaLoop stmt schList fb = .ok (fb ++ schemafulRecord stmt schList) := by
  have hnden : (stmt.fieldNames.enum.map Prod.snd).Nodup := by
    rw [List.enum_map_snd]; exact hnd
  intro schList
  induction schList with
  | nil => intro fb _; simp [sfSchemaLoop, schemafulRecord]
  | cons sf rest ih =>
    intro fb hsup
    rw [sfSchemaLoop,
      sfFieldLoop_char stmt.values sf stmt.fieldNames.enum fb false hnden
        (hsup sf (List.mem_cons_self _ _))]
    have hrest : ∀ q ∈ rest, ∀ pr ∈ stmt.fieldNames.enum, pr.2 = q.1 →
        ∃ e sc, stmt.values[pr.1]? = some e ∧ e none = Except.ok sc ∧
          sc.type = q.2 :=
      fun q hq => hsup q (List.mem_cons_of_mem _ hq)
    rcases hfind : stmt.fieldNames.enum.find? (fun pr => pr.2 = sf.1) with _ | pr
    · simp only [hfind]
      rw [ih (fb ++ [(⟨sf.1, (zeroValue sf.2).type, (zeroValue sf.2).data⟩ : Field)])
        hrest]
      unfold schemafulRecord
      rw [List.map_cons]
      simp [hfind]
    · simp only [hfind]
      rw [ih (fb ++ [suppliedField stmt.values sf pr]) hrest]
      unfold schemafulRecord
      rw [List.map_cons]
      simp [hfind]

/-- C5: an `INSERT` with an explicit field list into a schemaful table fills
every schema field whose name appears at no position of the field list with
the zero value of its declared type, keeps the schema's field order, and
succeeds provided every supplied position that matches a schema field holds
a value of the declared type. -/
theorem insert_schemaful_zero_fill (stmt : InsertStmt) (t : Table)
    (sch : Schema) (hsch : t.schema = some sch)
    (hf : stmt.fieldNames ≠ []) (hv : stmt.values ≠ [])
    (hnd : stmt.fieldNames.Nodup)
    (hsup : ∀ sf ∈ sch, ∀ pr ∈ stmt.fieldNames.enum, pr.2 = sf.1 →
      ∃ e sc, stmt.values[pr.1]? = some e ∧ e none = Except.ok sc ∧
        sc.type = sf.2) :
    stmt.run t = .res ⟨recordIDToTable (encodeBE8 t.nextID), none⟩
      { schema := t.schema,
        rows := t.rows ++ [(encodeBE8 t.nextID, schemafulRecord stmt sch)],
        nextID := t.nextID + 1 } ∧
    (∀ sf ∈ sch, sf.1 ∉ stmt.fieldNames →
      (⟨sf.1, (zeroValue sf.2).type, (zeroValue sf.2).data⟩ : Field)
        ∈ schemafulRecord stmt sch) := by
  have hvempty : ¬ (stmt.values.isEmpty = true) :=
    fun hh => hv (List.isEmpty_iff.mp hh)
  have hfempty : ¬ (stmt.fieldNames.isEmpty = true) :=
    fun hh => hf (List.isEmpty_iff.mp hh)
  constructor
  · obtain ⟨tsch, trows, tnext⟩ := t
    replace hsch : tsch = some sch := hsch
    subst hsch
    unfold InsertStmt.run
    rw [if_neg hvempty]
    unfold insertBuild
    rw [if_neg hfempty]
    show insertFinish _ (runSchemafulWithSelectedFields stmt sch) = _
    unfold runSchemafulWithSelectedFields
    rw [sfSchemaLoop_char stmt hnd sch [] hsup]
    rfl
  · intro sf hsf hnotin
    have hfind : stmt.fieldNames.enum.find? (fun pr => pr.2 = sf.1) = none := by
      rw [List.find?_eq_none]
      intro pr hpr hp
      apply hnotin
      have h2 : pr.2 ∈ stmt.fieldNames.enum.map Prod.snd :=
        List.mem_map.mpr ⟨pr, hpr, rfl⟩
      rw [List.enum_map_snd] at h2
      simp only [decide_eq_true_eq] at hp
      exact hp ▸ h2
    unfold schemafulRecord
    apply List.mem_map.mpr
    refine ⟨sf, hsf, ?_⟩
    rw [hfind]

/-- Witness for C5: inserting `(a) VALUES (7)` into a table with schema
`{a: INT, b: TEXT}` stores `{a: 7, b: zero value of TEXT}` in schema
order. -/
theorem insert_schemaful_zero_fill_witness :
    (⟨["a"], [exprConst ⟨FType.fint, [7]⟩]⟩ : InsertStmt).run
        ⟨some [("a", FType.fint), ("b", FType.ftext)], [], 0⟩
      = .res ⟨recordIDToTable (encodeBE8 0), none⟩
          ⟨some [("a", FType.fint), ("b", FType.ftext)],
           [(encodeBE8 0, [⟨"a", FType.fint, [7]⟩, ⟨"b", FType.ftext, []⟩])], 1⟩ := by
  have hsup : ∀ sf ∈ ([("a", FType.fint), ("b", FType.ftext)] : Schema),
      ∀ pr ∈ (["a"] : List String).enum, pr.2 = sf.1 →
      ∃ e sc, ([exprConst ⟨FType.fint, [7]⟩] : List Expr)[pr.1]? = some e ∧
        e none = Except.ok sc ∧ sc.type = sf.2 := by
    intro sf hsf pr hpr hname
    cases hsf with
    | head =>
      cases hpr with
      | head => exact ⟨exprConst ⟨FType.fint, [7]⟩, ⟨FType.fint, [7]⟩, rfl, rfl, rfl⟩
      | tail _ h => cases h
    | tail _ hsf₂ =>
      cases hsf₂ with
      | head =>
        cases hpr with
        | head => exact absurd hname (by decide)
        | tail _ h => cases h
      | tail _ h => cases h
  have h := (insert_schemaful_zero_fill
    ⟨["a"], [exprConst ⟨FType.fint, [7]⟩]⟩
    ⟨some [("a", FType.fint), ("b", FType.ftext)], [], 0⟩
    [("a", FType.fint), ("b", FType.ftext)]
    rfl (by decide) (by simp) (by decide) hsup).1
  exact h.trans (by decide)

/-- Success of an expression evaluation / an insert build. -/
def isOkE {α : Type} (x : Except IErr α) : Bool :=
  match x with
  | .ok _ => true
  | .error _ => false

/-- One schema-field/value pair of the no-field-list path type-checks: the
value evaluates and its type equals the declared type. -/
def typeMatchesB (pr : (String × FType) × Expr) : Bool :=
  match pr.2 none with
  | .ok sc => sc.type = pr.1.2
  | .error _ => false

theorem buildWithoutFields_isOk (pairs : List ((String × FType) × Expr)) :
    ∀ fb, isOkE (buildWithoutFields pairs fb) = pairs.all typeMatchesB := by
  induction pairs with
  | nil => intro fb; rfl
  | cons pr ps ih =>
    intro fb
    rcases pr with ⟨sf, e⟩
    rcases hev : e none with m | sc
    · simp [buildWithoutFields, hev, typeMatchesB, isOkE]
    · by_cases hty : sc.type = sf.2
      · simp [buildWithoutFields, hev, typeMatchesB, hty, ih]
      · simp [buildWithoutFields, hev, typeMatchesB, isOkE, hty]

/-- The caller-visible success of a statement outcome: a `Result` with a nil
error (a panic is not a success). -/
def runSucceeded : RunOut → Bool
  | .res q _ => q.err.isNone
  | .panicked => false

theorem runSucceeded_insertFinish (t : Table) (b : Except IErr Record) :
    runSucceeded (insertFinish t b) = isOkE b := by
  rcases b with e | fb
  · rcases e with m | _ <;> rfl
  · rfl

theorem typeMatchesB_iff (pr : (String × FType) × Expr) :
    typeMatchesB pr = true ↔
      ∃ sc, pr.2 none = Except.ok sc ∧ sc.type = pr.1.2 := by
  rcases hev : pr.2 none with m | sc
  · simp [typeMatchesB, hev]
  · simp [typeMatchesB, hev]

/-- C6: `INSERT` without a field list errors on a schemaless table (nothing
is inserted, the table is unchanged); on a schemaful table it succeeds
exactly when the number of values equals the number of schema fields and
each value evaluates to a value whose type matches the schema field at the
same position, values taken in schema order. -/
theorem insert_without_field_list (stmt : InsertStmt) (t : Table)
    (hf : stmt.fieldNames = []) (hv : stmt.values ≠ []) :
    (t.schema = none →
      stmt.run t
        = .res ⟨[], some "fields must be selected for schemaless tables"⟩ t) ∧
    (∀ sch, t.schema = some sch →
      (runSucceeded (stmt.run t) = true ↔
        sch.length = stmt.values.length ∧
          ∀ pr ∈ sch.zip stmt.values,
            ∃ sc, pr.2 none = Except.ok sc ∧ sc.type = pr.1.2)) := by
  have hvempty : ¬ (stmt.values.isEmpty = true) :=
    fun hh => hv (List.isEmpty_iff.mp hh)
  have hfempty : stmt.fieldNames.isEmpty = true := by rw [hf]; rfl
  constructor
  · intro hsch
    obtain ⟨tsch, trows, tnext⟩ := t
    replace hsch : tsch = none := hsch
    subst hsch
    unfold InsertStmt.run
    rw [if_neg hvempty]
    unfold insertBuild
    rw [if_pos hfempty]
    rfl
  · intro sch hsch
    obtain ⟨tsch, trows, tnext⟩ := t
    replace hsch : tsch = some sch := hsch
    subst hsch
    unfold InsertStmt.run
    rw [if_neg hvempty]
    rw [runSucceeded_insertFinish]
    unfold insertBuild
    rw [if_pos hfempty]
    show isOkE (runWithoutSelectedFields stmt ⟨some sch, trows, tnext⟩)
        = true ↔ _
    unfold runWithoutSelectedFields
    show isOkE (if sch.length ≠ stmt.values.length then
        Except.error (IErr.err "field count mismatch")
      else buildWithoutFields (sch.zip stmt.values) []) = true ↔ _
    by_cases hlen : sch.length = stmt.values.length
    · rw [if_neg (by simp [hlen]), buildWithoutFields_isOk, List.all_eq_true]
      constructor
      · intro hall
        exact ⟨hlen, fun pr hpr => (typeMatchesB_iff pr).mp (hall pr hpr)⟩
      · intro hand pr hpr
        exact (typeMatchesB_iff pr).mpr (hand.2 pr hpr)
    · rw [if_pos (by simp [hlen])]
      simp [isOkE, hlen]

/-- Witness for C6: without a field list, an insert into a schemaless table
errors, and `VALUES (1)` into a table with schema `{a: INT}` succeeds. -/
theorem insert_without_field_list_witness :
    (⟨[], [exprConst ⟨FType.fint, [1]⟩]⟩ : InsertStmt).run ⟨none, [], 0⟩
        = .res ⟨[], some "fields must be selected for schemaless tables"⟩
            ⟨none, [], 0⟩ ∧
    runSucceeded ((⟨[], [exprConst ⟨FType.fint, [1]⟩]⟩ : InsertStmt).run
        ⟨some [("a", FType.fint)], [], 0⟩) = true := by
  refine ⟨(insert_without_field_list _ _ rfl (by simp)).1 rfl, ?_⟩
  apply ((insert_without_field_list
      (⟨[], [exprConst ⟨FType.fint, [1]⟩]⟩ : InsertStmt)
      ⟨some [("a", FType.fint)], [], 0⟩ rfl (by simp)).2
    [("a", FType.fint)] rfl).mpr
  refine ⟨rfl, ?_⟩
  intro pr hpr
  cases hpr with
  | head => exact ⟨⟨FType.fint, [1]⟩, rfl, rfl⟩
  | tail _ h => cases h

/-! ## The scanner token type (`scanner`, token block) and its
binary-operator precedence (`Token.Precedence`) -/

/-- The scanner's `Token` enumeration, one constructor per declared constant
in the token block (special, literal, operator, punctuation, keyword and
type-alias tokens). -/
inductive Tok where
  | ILLEGAL | EOF | WS | COMMENT
  | IDENT | NAMEDPARAM | POSITIONALPARAM | NUMBER | INTEGER
  | STRING | BADSTRING | BADESCAPE | TRUE | FALSE | NULL | REGEX | BADREGEX
  | ADD | SUB | MUL | DIV | MOD | BITWISEAND | BITWISEOR | BITWISEXOR
  | BETWEEN | AND | OR
  | EQ | NEQ | EQREGEX | NEQREGEX | LT | LTE | GT | GTE
  | IN | NIN | IS | ISN | LIKE | CONCAT
  | LPAREN | RPAREN | LBRACKET | RBRACKET | LSBRACKET | RSBRACKET
  | COMMA | COLON | DOUBLECOLON | SEMICOLON | DOT
  | ADD_KEYWORD | ALTER | AS | ASC | BEGIN | BY | CAST | COMMIT | CREATE
  | DEFAULT | DELETE | DESC | DISTINCT | DROP | EXISTS | EXPLAIN | FIELD
  | FROM | GROUP | IF | INDEX | INSERT | INTO | KEY | LIMIT | NOT | OFFSET
  | ON | ONLY | ORDER | PRECISION | PRIMARY | READ | REINDEX | RENAME
  | RETURNING | ROLLBACK | SELECT | SET | TABLE | TO | TRANSACTION | UNIQUE
  | UNSET | UPDATE | VALUES | WHERE | WRITE
  | TYPEARRAY | TYPEBIGINT | TYPEBLOB | TYPEBOOL | TYPEBYTES | TYPECHARACTER
  | TYPEDOCUMENT | TYPEDOUBLE | TYPEINT | TYPEINT2 | TYPEINT8 | TYPEINTEGER
  | TYPEMEDIUMINT | TYPESMALLINT | TYPETEXT | TYPETINYINT | TYPEREAL
  | TYPEVARCHAR
deriving DecidableEq, Repr

/-- Embeds `Token.Precedence` (scanner): the binary-operator precedence switch,
defaulting to 0. -/
def Tok.precedence : Tok → Nat
  | .OR => 1
  | .AND => 2
  | .EQ | .NEQ | .IS | .IN | .LIKE | .EQREGEX | .NEQREGEX | .BETWEEN => 3
  | .LT | .LTE | .GT | .GTE => 4
  | .BITWISEOR | .BITWISEXOR | .BITWISEAND => 5
  | .ADD | .SUB => 6
  | .MUL | .DIV | .MOD => 7
  | .CONCAT => 8
  | _ => 0

/-- Embeds `Token.IsOperator` (scanner): `tok > operatorBeg && tok < operatorEnd`,
which holds exactly for the tokens declared in the operator block, `ADD`
through `CONCAT` (including `NIN` and `ISN`). -/
def Tok.isOperator : Tok → Bool
  | .ADD | .SUB | .MUL | .DIV | .MOD | .BITWISEAND | .BITWISEOR | .BITWISEXOR
  | .BETWEEN | .AND | .OR | .EQ | .NEQ | .EQREGEX | .NEQREGEX
  | .LT | .LTE | .GT | .GTE | .IN | .NIN | .IS | .ISN | .LIKE
  | .CONCAT => true
  | _ => false

/-- C8: the precedence function assigns exactly the spec's levels — `OR` 1;
`AND` 2; `=`, `!=`, `IS`, `IN`, `LIKE`, `=~`, `!~`, `BETWEEN` 3; `<`, `<=`,
`>`, `>=` 4; `|`, `^`, `&` 5; `+`, `-` 6; `*`, `/`, `%` 7; `||` 8 — and
every non-operator token gets precedence 0. -/
theorem token_precedence_levels :
    (Tok.precedence .OR = 1 ∧ Tok.precedence .AND = 2 ∧
     Tok.precedence .EQ = 3 ∧ Tok.precedence .NEQ = 3 ∧
     Tok.precedence .IS = 3 ∧ Tok.precedence .IN = 3 ∧
     Tok.precedence .LIKE = 3 ∧ Tok.precedence .EQREGEX = 3 ∧
     Tok.precedence .NEQREGEX = 3 ∧ Tok.precedence .BETWEEN = 3 ∧
     Tok.precedence .LT = 4 ∧ Tok.precedence .LTE = 4 ∧
     Tok.precedence .GT = 4 ∧ Tok.precedence .GTE = 4 ∧
     Tok.precedence .BITWISEOR = 5 ∧ Tok.precedence .BITWISEXOR = 5 ∧
     Tok.precedence .BITWISEAND = 5 ∧
     Tok.precedence .ADD = 6 ∧ Tok.precedence .SUB = 6 ∧
     Tok.precedence .MUL = 7 ∧ Tok.precedence .DIV = 7 ∧
     Tok.precedence .MOD = 7 ∧ Tok.precedence .CONCAT = 8) ∧
    ∀ t : Tok, t.isOperator = false → t.precedence = 0 := by
  refine ⟨⟨rfl, rfl, rfl, rfl, rfl, rfl, rfl, rfl, rfl, rfl, rfl, rfl, rfl,
    rfl, rfl, rfl, rfl, rfl, rfl, rfl, rfl, rfl, rfl⟩, ?_⟩
  intro t h
  cases t <;> first | rfl | exact absurd h (by decide)

/-- Witness for C8: `SELECT` is not an operator token and has precedence 0. -/
theorem token_precedence_levels_witness :
    Tok.isOperator .SELECT = false ∧ Tok.precedence .SELECT = 0 :=
  ⟨by decide, token_precedence_levels.2 Tok.SELECT (by decide)⟩

/-! ## The `CREATE INDEX` parser (`parseCreateIndexStatement`, `insert.go`) -/

/-- A parse error: an unexpected token (with its literal) against the list
of expected token strings (`newParseError`; positions are not tracked by
the embedding), or a direct message (`&ParseError{Message: ...}`). -/
inductive PErr where
  | unexpected (found : Tok) (lit : String) (expected : List String)
  | message (s : String)
deriving DecidableEq, Repr

/-- The token stream: the scanner's `(token, literal)` pairs with whitespace
and comments already skipped (`ScanIgnoreWhitespace`); the end of the list
stands for the scanner's trail of `EOF` tokens, and `Unscan` is realized by
peeking before consuming. -/
abbrev Toks := List (Tok × String)

/-- Embeds `parser.ParseIdent` (parser base, modelled from the spec §4.E): consume
one token; an `IDENT` yields its literal, anything else is a parse error. -/
def parseIdent : Toks → Except PErr (String × Toks)
  | (Tok.IDENT, lit) :: rest => .ok (lit, rest)
  | (tok, lit) :: _ => .error (.unexpected tok lit ["identifier"])
  | [] => .error (.unexpected Tok.EOF "" ["identifier"])

/-- The loop of `parser.ParseIdentList` (parser base, modelled from the spec
§4.E): while the next token is a comma, consume it and require an
identifier; otherwise push the token back and stop. -/
def parseIdentListAux : Toks → List String → Except PErr (List String × Toks)
  | (Tok.COMMA, _) :: (Tok.IDENT, lit) :: rest, acc =>
    parseIdentListAux rest (acc ++ [lit])
  | (Tok.COMMA, _) :: (tok, lit) :: _, _ =>
    .error (.unexpected tok lit ["identifier"])
  | (Tok.COMMA, _) :: [], _ =>
    .error (.unexpected Tok.EOF "" ["identifier"])
  | toks, acc => .ok (acc, toks)

/-- Embeds `parser.ParseIdentList` (parser base, modelled from the spec §4.E): one
required identifier, then comma-separated identifiers. -/
def parseIdentList (toks : Toks) : Except PErr (List String × Toks) :=
  match parseIdent toks with
  | .error e => .error e
  | .ok (first, rest) => parseIdentListAux rest [first]

/-- Embeds `parseFieldList` (`insert.go`): an optional parenthesized identifier
list; when the next token is not `(` it is pushed back and no list is
reported (`ok = false`, here `none`); otherwise the identifier list and the
closing `)` are required. -/
def parseFieldList : Toks → Except PErr (Option (List String) × Toks)
  | (Tok.LPAREN, _) :: rest =>
    (match parseIdentList rest with
     | .error e => .error e
     | .ok (fields, rest') =>
       match rest' with
       | (Tok.RPAREN, _) :: rest'' => .ok (some fields, rest'')
       | (tok, lit) :: _ => .error (.unexpected tok lit [")"])
       | [] => .error (.unexpected Tok.EOF "" [")"]))
  | toks => .ok (none, toks)

/-- Embeds `createIndexStmt` (`insert.go` AST), the parsed form of a
`CREATE [UNIQUE] INDEX` statement; exactly one indexed field. -/
structure CreateIndexStmt where
  ifNotExists : Bool
  indexName : String
  tableName : String
  fieldName : String
  unique : Bool
deriving DecidableEq, Repr

/-- The `IF NOT EXISTS` prelude of `parseCreateIndexStatement` (`insert.go`):
when the next token is `IF`, the tokens `NOT` and `EXISTS` are required;
otherwise the token is pushed back. -/
def parseIfNotExistsTail : Toks → Except PErr (Bool × Toks)
  | (Tok.IF, _) :: rest =>
    (match rest with
     | (Tok.NOT, _) :: rest2 =>
       (match rest2 with
        | (Tok.EXISTS, _) :: rest3 => .ok (true, rest3)
        | (tok, lit) :: _ => .error (.unexpected tok lit ["EXISTS"])
        | [] => .error (.unexpected Tok.EOF "" ["EXISTS"]))
     | (tok, lit) :: _ => .error (.unexpected tok lit ["NOT", "EXISTS"])
     | [] => .error (.unexpected Tok.EOF "" ["NOT", "EXISTS"]))
  | toks => .ok (false, toks)

/-- Embeds `parseCreateIndexStatement` (`insert.go`), assuming `CREATE [UNIQUE]
INDEX` already consumed: optional `IF NOT EXISTS`, the index name, `ON`,
the table name, then a required parenthesized field list; a list with other
than exactly one field is rejected with the parse error "indexes on more
than one field not supported". -/
def parseCreateIndexStatement (unique : Bool) (toks : Toks) :
    Except PErr (CreateIndexStmt × Toks) :=
  match parseIfNotExistsTail toks with
  | .error e => .error e
  | .ok (ifne, t1) =>
    match parseIdent t1 with
    | .error e => .error e
    | .ok (idxName, t2) =>
      match t2 with
      | (Tok.ON, _) :: t3 =>
        (match parseIdent t3 with
         | .error e => .error e
         | .ok (tblName, t4) =>
           match parseFieldList t4 with
           | .error e => .error e
           | .ok (none, t5) =>
             (match t5 with
              | (tok, lit) :: _ => .error (.unexpected tok lit ["("])
              | [] => .error (.unexpected Tok.EOF "" ["("]))
           | .ok (some fields, t5) =>
             if fields.length ≠ 1 then
               .error (.message "indexes on more than one field not supported")
             else
               .ok (⟨ifne, idxName, tblName, fields.headD "", unique⟩, t5))
      | (tok, lit) :: _ => .error (.unexpected tok lit ["ON"])
      | [] => .error (.unexpected Tok.EOF "" ["ON"])

/-- The comma-separated continuation of an identifier list, as tokens. -/
def commaIdentToks : List String → Toks
  | [] => []
  | f :: fs => (Tok.COMMA, "") :: (Tok.IDENT, f) :: commaIdentToks fs

/-- The token stream of `CREATE [UNIQUE] INDEX [IF NOT EXISTS] idx ON tbl
(f, fs...)` after `CREATE [UNIQUE] INDEX`, followed by arbitrary trailing
tokens. -/
def createIndexToks (ifne : Bool) (idx tbl f : String) (fs : List String)
    (rest : Toks) : Toks :=
  (if ifne then [(Tok.IF, ""), (Tok.NOT, ""), (Tok.EXISTS, "")] else [])
    ++ (Tok.IDENT, idx) :: (Tok.ON, "") :: (Tok.IDENT, tbl) :: (Tok.LPAREN, "")
      :: (Tok.IDENT, f) :: (commaIdentToks fs ++ (Tok.RPAREN, "") :: rest)

theorem parseIdentListAux_comma (fs : List String) (rest : Toks) :
    ∀ acc, parseIdentListAux (commaIdentToks fs ++ (Tok.RPAREN, "") :: rest) acc
      = .ok (acc ++ fs, (Tok.RPAREN, "") :: rest) := by
  induction fs with
  | nil => intro acc; simp [commaIdentToks, parseIdentListAux]
  | cons f fs' ih =>
    intro acc
    simp only [commaIdentToks, List.cons_append, parseIdentListAux]
    exact (ih (acc ++ [f])).trans (by simp)

theorem parseFieldList_toks (f : String) (fs : List String) (rest : Toks) :
    parseFieldList ((Tok.LPAREN, "") :: (Tok.IDENT, f)
        :: (commaIdentToks fs ++ (Tok.RPAREN, "") :: rest))
      = .ok (some (f :: fs), rest) := by
  simp only [parseFieldList, parseIdentList, parseIdent]
  rw [parseIdentListAux_comma fs rest [f]]
  simp

/-- C7: a `CREATE [UNIQUE] INDEX` statement whose parenthesized field list
holds two or more fields (`f :: fs` with `fs ≠ []`) fails at parse time
with the parse error "indexes on more than one field not supported" —
before any catalog or storage action, since parsing produces no statement —
while the same statement with exactly one field parses successfully into a
`createIndexStmt` carrying that field. -/
theorem create_index_single_field (unique ifne : Bool) (idx tbl f : String)
    (fs : List String) (rest : Toks) :
    (fs ≠ [] →
      parseCreateIndexStatement unique (createIndexToks ifne idx tbl f fs rest)
        = .error (.message "indexes on more than one field not supported")) ∧
    (fs = [] →
      parseCreateIndexStatement unique (createIndexToks ifne idx tbl f fs rest)
        = .ok (⟨ifne, idx, tbl, f, unique⟩, rest)) := by
  have hform : parseCreateIndexStatement unique
      (createIndexToks ifne idx tbl f fs rest)
        = if (f :: fs).length ≠ 1 then
            .error (.message "indexes on more than one field not supported")
          else .ok (⟨ifne, idx, tbl, (f :: fs).headD "", unique⟩, rest) := by
    cases ifne <;>
      simp only [createIndexToks, if_pos, if_neg, Bool.false_eq_true,
        not_false_eq_true, List.nil_append, List.cons_append,
        parseCreateIndexStatement, parseIfNotExistsTail, parseIdent,
        parseFieldList_toks]
  constructor
  · intro hfs
    rw [hform, if_pos (by simp [hfs])]
  · intro hfs
    subst hfs
    rw [hform, if_neg (by simp)]
    rfl

/-- Witness for C7: `CREATE INDEX ux ON t (a, b)` is rejected with the
parse error, and `CREATE UNIQUE INDEX IF NOT EXISTS ux ON t (a)` parses. -/
theorem create_index_single_field_witness :
    parseCreateIndexStatement false
        (createIndexToks false "ux" "t" "a" ["b"] [])
      = .error (.message "indexes on more than one field not supported") ∧
    parseCreateIndexStatement true
        (createIndexToks true "ux" "t" "a" [] [])
      = .ok (⟨true, "ux", "t", "a", true⟩, []) :=
  ⟨(create_index_single_field false false "ux" "t" "a" ["b"] []).1 (by simp),
   (create_index_single_field true true "ux" "t" "a" [] []).2 rfl⟩

end Genji
